import Mathlib

/-!
Verification of the laravel-micro.js Container (src/src/Container.js) and
the Pipeline/Kernel executor against the repository specification.

The container is embedded shallowly: JS objects used as string-keyed maps
become association lists, JS exceptions become an `Except` result, the JS
heap's fresh-object allocation is modelled by a monotone counter `fresh`
(two calls of `new` never return the same reference), and observable
provider/factory calls are recorded in an `events` list.  Debug logging
(`log`, `_logOutput`) and the attachment of `$alias` accessor properties
onto external target objects are not observed by any claim and are left
out of the modelled state.
-/

namespace Micro

/-- JS runtime values as far as the container observes them: `null` and
`undefined`, booleans, numbers, strings, heap objects identified by their
allocation id (reference equality), and `Exception` objects (which carry a
`name` and a `message`). -/
inductive Value where
  | null
  | undefined
  | bool (b : Bool)
  | num (n : Int)
  | str (s : String)
  | obj (id : Nat)
  | exc (name : String) (msg : String)
  deriving DecidableEq, Repr

/-- JS truthiness of a `Value` (`if (v)`); NaN is not modelled. -/
def truthy : Value → Bool
  | .null => false
  | .undefined => false
  | .bool b => b
  | .num n => n != 0
  | .str s => s != ""
  | .obj _ => true
  | .exc _ _ => true

/-- `Container._isset(value)`: `![null, undefined].includes(value)`. -/
def issetVal : Value → Bool
  | .null => false
  | .undefined => false
  | _ => true

/-- `_isset` applied to a map read, where `none` is an absent property
(which reads as `undefined` in JS). -/
def issetV : Option Value → Bool
  | none => false
  | some v => issetVal v

/-- Result of invoking a callable binding: it returns a value, returns
`undefined`, or throws. -/
inductive FRes where
  | ret (v : Option Value)
  | thr (e : Value)

/-- A callable binding (factory / constructor).  `src` is its source text
(`callable.toString()`), from which `_readArguments` derives the declared
dependency names.  `invoke` is its behaviour when invoked: it receives the
positional injections and the next fresh heap id (the id that a fresh
object allocated by this call would receive).  `new construct` and a plain
`construct()` call (the two branches of `_makeConcrete`, selected by
`isClass`) are both invocations of the callable and are both represented
by `invoke`. -/
structure Callable where
  src : String
  invoke : List Value → Nat → FRes

/-- A bound value: either a non-callable concrete value or a callable. -/
inductive BindingV where
  | val (v : Value)
  | fn (c : Callable)

/-- `_isset` on a stored binding (a callable is always set). -/
def issetB : BindingV → Bool
  | .val v => issetVal v
  | .fn _ => true

/-- JS truthiness of a stored binding (functions are truthy). -/
def truthyB : BindingV → Bool
  | .val v => truthy v
  | .fn _ => true

/-- Association list with JS-object semantics: first (unique) key wins,
assignment overwrites in place, `delete` removes the key. -/
def aget : List (String × α) → String → Option α
  | [], _ => none
  | (k, v) :: m, x => if k = x then some v else aget m x

/-- Property assignment `m[k] = v`: overwrite in place, else append. -/
def aset : List (String × α) → String → α → List (String × α)
  | [], k, v => [(k, v)]
  | (k1, v1) :: m, k, v =>
      if k1 = k then (k, v) :: m else (k1, v1) :: aset m k v

/-- Property removal `delete m[k]`. -/
def adel : List (String × α) → String → List (String × α)
  | [], _ => []
  | (k1, v1) :: m, k =>
      if k1 = k then adel m k else (k1, v1) :: adel m k

/-- A registered service provider instance (the `ServiceProvider`
collaborator contract of the spec).  Its `register()` and `load()`
side effects on the container are the bindings they install, given as
`(alias, binding, shared)` triples. -/
structure Provider where
  name : String
  isDeferred : Bool
  provides : List String
  regActions : List (String × BindingV × Bool)
  loadActions : List (String × BindingV × Bool)

/-- Observable calls recorded while operating the container:
`reg p` = `p.register()` was called, `load p` = `p.load()` was called
(provider boot), `invoked src` = a callable binding with source text `src`
was invoked by `_makeConcrete`. -/
inductive Event where
  | reg (provider : String)
  | load (provider : String)
  | invoked (src : String)
  deriving DecidableEq, Repr

/-- The Container state: the fields of `Container`'s constructor.
`fresh` is the next heap allocation id and `events` the observation log;
`_debug` / `_logOutput` are not modelled (no claim observes them). -/
structure CState where
  providers : List (String × Provider)
  bindings : List (String × BindingV)
  resolved : List (String × Value)
  injections : List String
  sharable : List String
  shouldShare : List String
  sharedWith : List (String × List Nat)
  errorHandler : Option (Value → Value)
  fresh : Nat
  events : List Event

/-- `new Container()`. -/
def initState : CState :=
  { providers := [], bindings := [], resolved := [], injections := []
    sharable := [], shouldShare := [], sharedWith := []
    errorHandler := none, fresh := 0, events := [] }

/-- `getName(this)` for the container itself: its constructor name. -/
def containerName : String := "Container"

/-- `makeException(name, msg)` (Container.js 611-615): an `Exception`
whose `name` is `<ContainerName> <name>`. -/
def makeException (name msg : String) : Value :=
  .exc (containerName ++ " " ++ name) msg

/-- `isBound(alias)` (Container.js 145-147). -/
def isBound (s : CState) (a : String) : Bool :=
  match aget s.bindings a with
  | some b => issetB b
  | none => false

/-- `isResolved(alias)` (Container.js 154-156). -/
def isResolved (s : CState) (a : String) : Bool :=
  issetV (aget s.resolved a)

/-- `canShare(alias)` (Container.js 344-346). -/
def canShare (s : CState) (a : String) : Bool :=
  s.sharable.contains a

/-- `getInstance(alias)` (Container.js 556-559): a raw map read. -/
def getInstance (s : CState) (a : String) : Value :=
  (aget s.resolved a).getD .undefined

/-- Does `pat` occur at the start of `cs`? -/
def listStartsWith : List Char → List Char → Bool
  | [], _ => true
  | _ :: _, [] => false
  | p :: ps, x :: xs => p = x && listStartsWith ps xs

/-- Split at the first occurrence of `c`: the characters before it and the
characters after it; `none` when `c` does not occur. -/
def splitAtChar (c : Char) : List Char → Option (List Char × List Char)
  | [] => none
  | x :: xs =>
      if x = c then some ([], xs)
      else match splitAtChar c xs with
        | some (pre, post) => some (x :: pre, post)
        | none => none

/-- After a matched literal `function`, the regex continues with
`.*?\(([^)]*)\)`: lazily skip non-newline characters to a `(` (a newline
before any `(` fails this start position, `.` does not match newlines),
then capture `[^)]*` up to a mandatory `)` (a negated class does match
newlines).  Returns the captured group. -/
def matchParens : List Char → Option (List Char)
  | [] => none
  | x :: xs =>
      if x = '\n' then none
      else if x = '(' then
        match splitAtChar ')' xs with
        | some (cap, _) => some cap
        | none => none
      else matchParens xs

/-- The capture group of the leftmost match of `/function.*?\(([^)]*)\)/`
(Container.js 514), trying start positions left to right as the JS regex
engine does. -/
def regexFunctionArgs : List Char → Option (List Char)
  | [] => none
  | x :: xs =>
      if listStartsWith "function".toList (x :: xs) then
        match matchParens ((x :: xs).drop 8) with
        | some cap => some cap
        | none => regexFunctionArgs xs
      else regexFunctionArgs xs

/-- `String.prototype.split(',')` over the captured characters. -/
def splitOnComma : List Char → List (List Char)
  | [] => [[]]
  | c :: cs =>
      if c = ',' then [] :: splitOnComma cs
      else match splitOnComma cs with
        | g :: gs => (c :: g) :: gs
        | [] => [[c]]

/-- The whitespace removed by `String.prototype.trim()` (the characters
that occur in practice). -/
def isWSChar (c : Char) : Bool :=
  c = ' ' || c = '\t' || c = '\n' || c = '\r'

/-- `arg.trim()`: strip leading and trailing whitespace. -/
def trimChars (cs : List Char) : List Char :=
  ((cs.dropWhile isWSChar).reverse.dropWhile isWSChar).reverse

/-- `_readArguments(callable)` (Container.js 513-519): match the argument
list, split on commas, trim each entry, drop empty entries.  The guard
`args && args[1]` means an empty capture also yields `[]`. -/
def readArguments (src : String) : List String :=
  match regexFunctionArgs src.toList with
  | some cap =>
      if cap.isEmpty then []
      else (((splitOnComma cap).map trimChars).filter
        (fun a => !a.isEmpty)).map (fun a => String.mk a)
  | none => []

/-- The resolver's result: a returned value or a thrown exception, plus
the container state after the call (JS does not roll back state on
throw). -/
abbrev Res := Except Value Value × CState

/-- `handleError(error)` (Container.js 124-129): delegate to the
installed handler (its return value becomes the call's result) or
re-throw. -/
def handleError (s : CState) (e : Value) : Res :=
  match s.errorHandler with
  | some h => (.ok (h e), s)
  | none => (.error e, s)

/-- `_destroyReference(alias, obj)` (Container.js 495-501) on a value
map: delete the key only when the stored value is truthy. -/
def destroyReference (m : List (String × Value)) (a : String) :
    List (String × Value) :=
  match aget m a with
  | some v => if truthy v then adel m a else m
  | none => m

/-- `_destroyReference` on the bindings map. -/
def destroyReferenceB (m : List (String × BindingV)) (a : String) :
    List (String × BindingV) :=
  match aget m a with
  | some b => if truthyB b then adel m a else m
  | none => m

/-- `unShare(alias)` (Container.js 329-337): drop the registry entry (an
empty shared list is truthy in JS, so a present entry is always dropped).
Removal of the `$alias` accessor from the external target objects is
outside the modelled state. -/
def unShare (s : CState) (a : String) : CState :=
  match aget s.sharedWith a with
  | none => s
  | some _ => { s with sharedWith := adel s.sharedWith a }

/-- `destroy(alias)` (Container.js 242-251). -/
def destroy (s : CState) (a : String) : Bool × CState :=
  if isResolved s a then
    let s1 := unShare s a
    (true, { s1 with resolved := destroyReference s1.resolved a })
  else (false, s)

/-- `setInstance(alias, concrete, shared=true)` (Container.js 228-235). -/
def setInstance (s : CState) (a : String) (v : Value) (shared : Bool) :
    Value × CState :=
  let s1 := { s with resolved := aset s.resolved a v }
  (v, if shared && !s1.sharable.contains a
      then { s1 with sharable := s1.sharable ++ [a] } else s1)

/-- `bind(alias, binding, shared=true)` (Container.js 197-204). -/
def bind (s : CState) (a : String) (b : BindingV) (shared : Bool) : CState :=
  let s1 := { s with bindings := aset s.bindings a b }
  if shared && !s1.sharable.contains a
  then { s1 with sharable := s1.sharable ++ [a] } else s1

/-- `unBind(alias)` (Container.js 211-219): destroy, drop the binding
reference, splice the alias out of the sharable list. -/
def unBind (s : CState) (a : String) : CState :=
  let s1 := (destroy s a).2
  let s2 := { s1 with bindings := destroyReferenceB s1.bindings a }
  if s2.sharable.contains a
  then { s2 with sharable := s2.sharable.erase a } else s2

/-- `register(ServiceProvider)` (Container.js 183-188): instantiate and
store under the provider's class name (overwriting in place). -/
def registerProvider (s : CState) (p : Provider) : CState :=
  { s with providers := aset s.providers p.name p }

/-- Run a provider's list of `bind` calls against the container. -/
def applyBinds (s : CState) (acts : List (String × BindingV × Bool)) :
    CState :=
  acts.foldl (fun st act => bind st act.1 act.2.1 act.2.2) s

/-- `providerInstance.register()` as called by `bootProviders`. -/
def runRegister (s : CState) (p : Provider) : CState :=
  applyBinds { s with events := s.events ++ [.reg p.name] } p.regActions

/-- `_bootProvider(ProviderInstance)` (Container.js 373-376):
`ProviderInstance.load()`. -/
def bootProvider (s : CState) (p : Provider) : CState :=
  applyBinds { s with events := s.events ++ [.load p.name] } p.loadActions

/-- `_findProvider(alias)` (Container.js 384-392): the first registered
provider whose `provides` list contains the alias. -/
def findProvider (s : CState) (a : String) : Option Provider :=
  ((s.providers.map (fun q => q.2)).find? (fun p => p.provides.contains a))

/-- Phase 1 of `bootProviders` (Container.js 354-358): call `register()`
on every stored provider, over a snapshot of the key list. -/
def bootRegisterPhase (names : List String) (s : CState) : CState :=
  names.foldl (fun st n =>
    match aget st.providers n with
    | some p => runRegister st p
    | none => st) s

/-- Phase 2 of `bootProviders` (Container.js 359-365): boot every
non-deferred provider, in the same snapshot order. -/
def bootLoadPhase (names : List String) (s : CState) : CState :=
  names.foldl (fun st n =>
    match aget st.providers n with
    | some p => if p.isDeferred then st else bootProvider st p
    | none => st) s

/-- `bootProviders()` (Container.js 352-366). -/
def bootProviders (s : CState) : CState :=
  let names := s.providers.map (fun q => q.1)
  bootLoadPhase names (bootRegisterPhase names s)

/-- `share(...aliases)` (Container.js 258-272).  The `forEach` body can
call `handleError`, which throws when no handler is installed; the odd
one-argument `makeException` call puts the message text into the
exception's name and leaves the message empty. -/
def shareFold : List String → CState → Except Value Unit × CState
  | [], s => (.ok (), s)
  | a :: rest, s =>
      if !isBound s a then
        match handleError s
            (.exc (containerName ++ " " ++ ("No binding for " ++ a ++
              " available to share.")) "") with
        | (.ok _, s1) => shareFold rest s1
        | (.error e, s1) => (.error e, s1)
      else if !canShare s a then
        match handleError s
            (.exc (containerName ++ " " ++ (a ++ " is not sharable.")) "") with
        | (.ok _, s1) => shareFold rest s1
        | (.error e, s1) => (.error e, s1)
      else if s.shouldShare.contains a then shareFold rest s
      else shareFold rest { s with shouldShare := s.shouldShare ++ [a] }

/-- `share(...aliases)`: reset the staged list, then stage each alias. -/
def share (s : CState) (aliases : List String) : Except Value Unit × CState :=
  shareFold aliases { s with shouldShare := [] }

/-- `withOthers(...instances)` (Container.js 288-303): record each target
(identified by a heap id) at most once per staged alias, then clear the
staged list.  The accessor property written onto the external target is
outside the modelled state. -/
def withOthers (s : CState) (targets : List Nat) : CState :=
  let s1 :=
    if s.shouldShare.length > 0 then
      s.shouldShare.foldl (fun st a =>
        targets.foldl (fun st2 tgt =>
          let lst := (aget st2.sharedWith a).getD []
          if lst.contains tgt then st2
          else { st2 with sharedWith := aset st2.sharedWith a (lst ++ [tgt]) })
          st) s
    else s
  { s1 with shouldShare := [] }

/-- `_makeConcrete(binding, injections)` (Container.js 443-460): invoke
the callable (`new construct` or `construct()`, both represented by
`Callable.invoke`), consuming a fresh heap id.  A thrown exception is
funnelled through `handleError`; an `undefined` result makes the function
RETURN the Binding Exception as its value (Container.js 453). -/
def makeConcrete (s : CState) (c : Callable) (injections : List Value) :
    Res :=
  let s1 := { s with fresh := s.fresh + 1
                     events := s.events ++ [.invoked c.src] }
  match c.invoke injections s.fresh with
  | .thr e => handleError s1 e
  | .ret none =>
      (.ok (makeException "Binding Exception"
        ("Binding " ++ c.src ++ " failed, return value is undefined.")), s1)
  | .ret (some v) => (.ok v, s1)

/-- The dependency loop of `_prepareForInjection` (Container.js 473-483):
for each declared dependency, throw a Circular Dependency Exception if it
is already on the injection stack (the message joins the stack as it is
before the push), else push it, recursively resolve it, and splice it
back out.  A throw from the recursive resolve propagates, leaving the
stack as it was at the throw. -/
def injectDeps (recur : CState → String → Res) (alias0 : String) :
    List String → CState → List Value → Except Value (List Value) × CState
  | [], s, acc => (.ok acc, s)
  | d :: ds, s, acc =>
      if s.injections.contains d then
        (.error (makeException "Circular Dependency Exception"
          (alias0 ++ " requires " ++ String.intercalate ", " s.injections)), s)
      else
        match recur { s with injections := s.injections ++ [d] } d with
        | (.ok v, s2) =>
            injectDeps recur alias0 ds
              { s2 with injections := s2.injections.erase d } (acc ++ [v])
        | (.error e, s2) => (.error e, s2)

/-- `_resolveIfNotResolved(alias)` (Container.js 428-435): a callable
binding is prepared for injection (its declared parameter names are read
from its source text) and constructed; any other binding is returned
as-is. -/
def resolveIfNotResolved (recur : CState → String → Res) (s : CState)
    (alias0 : String) : Res :=
  match aget s.bindings alias0 with
  | some (.fn c) =>
      match injectDeps recur alias0 (readArguments c.src) s [] with
      | (.ok injections, s1) => makeConcrete s1 c injections
      | (.error e, s1) => (.error e, s1)
  | some (.val v) => (.ok v, s)
  | none => (.ok .undefined, s)

/-- `_resolve(alias, rebound=false)` (Container.js 400-421), with a fuel
parameter bounding the recursion depth (the returned fuel-exhaustion
error is never reached for adequate fuel; every concrete and general
result below either supplies or quantifies over sufficient fuel). -/
def resolveFuel : Nat → CState → String → Bool → Res
  | 0, s, _, _ => (.error (.exc "Fuel" "recursion bound exceeded"), s)
  | fuel + 1, s, alias0, rebound =>
      if isResolved s alias0 && canShare s alias0 && !rebound then
        (.ok (getInstance s alias0), s)
      else
        let s1 := if rebound then (destroy s alias0).2 else s
        if !isBound s1 alias0 then
          handleError s1 (makeException "Binding Exception"
            ("No Binding found for \"" ++ alias0 ++ "\"."))
        else
          let s2 := match findProvider s1 alias0 with
            | some p => if p.isDeferred then bootProvider s1 p else s1
            | none => s1
          match resolveIfNotResolved
              (fun st a => resolveFuel fuel st a false) s2 alias0 with
          | (.ok inst, s3) =>
              if canShare s3 alias0 then
                (.ok inst, (setInstance s3 alias0 inst true).2)
              else (.ok inst, s3)
          | (.error e, s3) => (.error e, s3)

/-- Default recursion fuel: resolution depth is bounded by the number of
bound aliases plus the provider count (each nested level pushes a
distinct alias onto the injection stack). -/
def defaultFuel (s : CState) : Nat :=
  s.bindings.length + s.providers.length + 3

/-- `make(alias)` (Container.js 163-166). -/
def make (s : CState) (a : String) : Res :=
  resolveFuel (defaultFuel s) s a false

/-- `rebound(alias)` (Container.js 173-176). -/
def reboundOp (s : CState) (a : String) : Res :=
  resolveFuel (defaultFuel s) s a true

/-- The container's public operations, for stating invariants over whole
operation sequences. -/
inductive Op where
  | bind (a : String) (b : BindingV) (shared : Bool)
  | unBind (a : String)
  | setInstance (a : String) (v : Value) (shared : Bool)
  | destroy (a : String)
  | make (a : String)
  | rebound (a : String)
  | register (p : Provider)
  | bootProviders
  | share (aliases : List String)
  | withOthers (targets : List Nat)
  | unShare (a : String)
  | setErrorHandler (h : Option (Value → Value))

/-- One public operation, discarding the returned value. -/
def step (s : CState) : Op → CState
  | .bind a b sh => bind s a b sh
  | .unBind a => unBind s a
  | .setInstance a v sh => (setInstance s a v sh).2
  | .destroy a => (destroy s a).2
  | .make a => (make s a).2
  | .rebound a => (reboundOp s a).2
  | .register p => registerProvider s p
  | .bootProviders => bootProviders s
  | .share as => (share s as).2
  | .withOthers ts => withOthers s ts
  | .unShare a => unShare s a
  | .setErrorHandler h => { s with errorHandler := h }

/-- Run a sequence of public operations. -/
def runOps (ops : List Op) (s : CState) : CState :=
  ops.foldl step s

/-- Modelled from the spec: the Pipeline/Kernel source file is not under
src/ (only its tests are).  Spec 4.2: a pipe exposes one method per
traversal direction with signature `(state, next) -> void`, where calling
`next(transformedState)` advances the chain; a pipe that never calls
`next` halts the pipeline. -/
structure Pipe (σ ρ : Type) where
  handle : σ → (σ → ρ) → ρ
  terminate : σ → (σ → ρ) → ρ

/-- Modelled from the spec: the direction selected by `via(methodName)`
(`'handle'` or `'terminate'`). -/
inductive Direction where
  | handle
  | terminate

/-- Modelled from the spec: continuation-passing traversal of a pipe
list; each pipe receives the current state and a continuation that
advances to the next pipe, and the last pipe's continuation delivers the
final state to the terminal callback. -/
def runPipes (method : Pipe σ ρ → σ → (σ → ρ) → ρ) :
    List (Pipe σ ρ) → σ → (σ → ρ) → ρ
  | [], s, cb => cb s
  | p :: rest, s, cb => method p s (fun s2 => runPipes method rest s2 cb)

/-- Modelled from the spec: `send(initial).through(pipes).via(dir)` with
the terminal callback of `.then(callback)`.  Forward traversal
(`'handle'`) invokes the pipes in array order starting at index 0;
reverse traversal (`'terminate'`) invokes them in reverse array order
starting at the last index. -/
def via (dir : Direction) (pipes : List (Pipe σ ρ)) (s : σ) (cb : σ → ρ) :
    ρ :=
  match dir with
  | .handle => runPipes (fun p => p.handle) pipes s cb
  | .terminate => runPipes (fun p => p.terminate) pipes.reverse s cb

/-- A pipe that always passes a transformed state to its continuation:
`f` transforms on `handle`, `g` on `terminate`. -/
def transformerPipe (f g : σ → σ) : Pipe σ ρ :=
  { handle := fun s k => k (f s), terminate := fun s k => k (g s) }

/-- The state object threaded by the pipeline tests, with its numeric
`state` field. -/
structure PState where
  state : Int
  deriving DecidableEq, Repr

/-- Modelled from the spec and tests: the mock pipes PipeA..PipeD each
increment `state` by 1 on `handle` and decrement it by 1 on
`terminate`. -/
def incPipe : Pipe PState PState :=
  transformerPipe (fun s => { state := s.state + 1 })
    (fun s => { state := s.state - 1 })

/-- A provider only installs set (non-null, non-undefined) bindings. -/
def provWF (p : Provider) : Bool :=
  p.regActions.all (fun act => issetB act.2.1) &&
    p.loadActions.all (fun act => issetB act.2.1)

/-- Every registered provider is well-formed. -/
def provsWF (s : CState) : Prop :=
  ∀ q ∈ s.providers, provWF q.2 = true

/-- The containment invariant of the spec, restricted to truthy cached
values: every truthy resolved instance belongs to a currently bound
alias. -/
def TRB (s : CState) : Prop :=
  ∀ a v, aget s.resolved a = some v → truthy v = true → isBound s a = true

/-- How the container state can evolve across any resolver-internal step:
the provider map is untouched, the sharable list only grows, and (when
registered providers only install set bindings) boundness is monotone and
the truthy-resolved-implies-bound invariant is preserved. -/
def Evolves (s s' : CState) : Prop :=
  s'.providers = s.providers ∧
  (∀ x, x ∈ s.sharable → x ∈ s'.sharable) ∧
  (provsWF s →
    (∀ x, isBound s x = true → isBound s' x = true) ∧ (TRB s → TRB s'))

/-- An operation sequence is benign for the containment invariant when it
never calls `setInstance` and only installs set (non-null/undefined)
bindings, directly or through registered providers. -/
def opOK : Op → Bool
  | .setInstance _ _ _ => false
  | .bind _ b _ => issetB b
  | .register p => provWF p
  | _ => true

/-- A dependency-free constructor factory that allocates and returns a
fresh object. -/
def cFreshW : Callable :=
  { src := "function ()", invoke := fun _ n => .ret (some (.obj n)) }

/-- `new Container()` then `bind('A', cFreshW, true)`. -/
def sC1 : CState := bind initState "A" (.fn cFreshW) true

/-- The state after the first `make('A')` on `sC1`. -/
def sC1r : CState := (resolveFuel 1 sC1 "A" false).2

/-- `new Container()` then `bind('A', cFreshW, false)`. -/
def sC1u : CState := bind initState "A" (.fn cFreshW) false

/-- A factory whose declared parameter is `B`. -/
def cA2 : Callable :=
  { src := "function (B)", invoke := fun _ n => .ret (some (.obj n)) }

/-- A factory whose declared parameter is `A`. -/
def cB2 : Callable :=
  { src := "function (A)", invoke := fun _ n => .ret (some (.obj n)) }

/-- A container with the circular pair `A -> B -> A` bound. -/
def sC2 : CState :=
  bind (bind initState "A" (.fn cA2) true) "B" (.fn cB2) true

/-- The circular container of C2 with an error handler installed that
returns `null` for every error. -/
def sC3 : CState := { sC2 with errorHandler := some (fun _ => .null) }

/-- A factory that throws on invocation. -/
def cThrow : Callable :=
  { src := "function ()", invoke := fun _ _ => .thr (.exc "Boom" "bang") }

/-- An unconfigured container (no handler) with `cThrow` bound
unshared. -/
def sC3b : CState := bind initState "T" (.fn cThrow) false

/-- A container with a null-returning handler and `cThrow` bound
unshared. -/
def sC3c : CState :=
  { sC3b with errorHandler := some (fun _ => .null) }

/-- A factory whose invocation yields `undefined`. -/
def cUndef : Callable := { src := "function ()", invoke := fun _ _ => .ret none }

/-- Container with `U` bound (shared) to the undefined-returning
factory. -/
def sC4 : CState := bind initState "U" (.fn cUndef) true

/-- A factory returning the falsy number 0. -/
def c0W : Callable :=
  { src := "function ()", invoke := fun _ _ => .ret (some (.num 0)) }

/-- `setInstance('A', obj, true)` on a fresh container: caches an
instance for an alias that was never bound. -/
def sC5a : CState := (setInstance initState "A" (.obj 0) true).2

/-- Bind `Z` (shared) to a 0-returning factory, `make('Z')` (caching 0),
then `unBind('Z')`. -/
def sC5b : CState :=
  runOps [.bind "Z" (.fn c0W) true, .make "Z", .unBind "Z"] initState

/-- A benign operation sequence for the C5 witness. -/
def opsC5 : List Op :=
  [.bind "A" (.fn cFreshW) true, .make "A", .destroy "A", .unBind "A"]

/-- Bind `Z` (shared) to the 0-factory and `make('Z')`: the state fed to
`unBind` in the C5 witness. -/
def sC5pre : CState :=
  runOps [.bind "Z" (.fn c0W) true, .make "Z"] initState

/-- A deferred provider supplying `A`, whose registration binds `A`
unshared to a fresh-object factory. -/
def provP : Provider :=
  { name := "P", isDeferred := true, provides := ["A"]
    regActions := [("A", .fn cFreshW, false)], loadActions := [] }

/-- Register the deferred provider, boot, then `make('A')` twice. -/
def sC6 : CState :=
  runOps [.register provP, .bootProviders, .make "A", .make "A"] initState

/-- A non-deferred provider supplying `B`. -/
def provQ : Provider :=
  { name := "Q", isDeferred := false, provides := ["B"]
    regActions := [("B", .val (.num 1), true)], loadActions := [] }

/-- A container with one deferred and one non-deferred provider
registered. -/
def sC6w : CState := runOps [.register provP, .register provQ] initState

/-! ### Association-list lemmas -/

theorem aget_aset_self (m : List (String × α)) (k : String) (v : α) :
    aget (aset m k v) k = some v := by
  induction m with
  | nil => simp [aset, aget]
  | cons p m ih =>
      obtain ⟨k1, v1⟩ := p
      by_cases h : k1 = k
      · simp [aset, h, aget]
      · simp [aset, h, aget, ih]

theorem aget_aset_ne (m : List (String × α)) (k x : String) (v : α)
    (h : k ≠ x) : aget (aset m k v) x = aget m x := by
  induction m with
  | nil => simp [aset, aget, h]
  | cons p m ih =>
      obtain ⟨k1, v1⟩ := p
      by_cases h1 : k1 = k
      · subst h1
        simp [aset, aget, h]
      · simp [aset, h1, aget, ih]

theorem aget_adel_self (m : List (String × α)) (k : String) :
    aget (adel m k) k = none := by
  induction m with
  | nil => simp [adel, aget]
  | cons p m ih =>
      obtain ⟨k1, v1⟩ := p
      by_cases h : k1 = k
      · simp [adel, h, ih]
      · simp [adel, h, aget, ih]

theorem aget_adel_ne (m : List (String × α)) (k x : String)
    (h : k ≠ x) : aget (adel m k) x = aget m x := by
  induction m with
  | nil => simp [adel, aget]
  | cons p m ih =>
      obtain ⟨k1, v1⟩ := p
      by_cases h1 : k1 = k
      · subst h1
        simp [adel, aget, h, ih]
      · simp [adel, h1, aget, ih]

theorem aget_mem (m : List (String × α)) (k : String) (v : α)
    (h : aget m k = some v) : (k, v) ∈ m := by
  induction m with
  | nil => simp [aget] at h
  | cons p m ih =>
      obtain ⟨k1, v1⟩ := p
      by_cases h1 : k1 = k
      · subst h1
        simp [aget] at h
        simp [h]
      · simp [aget, h1] at h
        exact List.mem_cons_of_mem _ (ih h)

theorem mem_aset (m : List (String × α)) (k : String) (v : α) (q : String × α)
    (h : q ∈ aset m k v) : q = (k, v) ∨ q ∈ m := by
  induction m with
  | nil => simpa [aset] using h
  | cons p m ih =>
      obtain ⟨k1, v1⟩ := p
      by_cases h1 : k1 = k
      · simp [aset, h1] at h
        rcases h with h | h
        · exact Or.inl h
        · exact Or.inr (List.mem_cons_of_mem _ h)
      · simp [aset, h1] at h
        rcases h with h | h
        · exact Or.inr (by simp [h])
        · rcases ih h with h2 | h2
          · exact Or.inl h2
          · exact Or.inr (List.mem_cons_of_mem _ h2)

theorem aget_self_of_nodup (m : List (String × Provider))
    (hnd : (m.map (fun q => q.1)).Nodup) :
    ∀ q ∈ m, aget m q.1 = some q.2 := by
  induction m with
  | nil => simp
  | cons p rest ih =>
      obtain ⟨k, v⟩ := p
      rw [List.map_cons, List.nodup_cons] at hnd
      intro q hq
      rcases List.mem_cons.mp hq with h | h
      · subst h
        simp [aget]
      · have hne : k ≠ q.1 := by
          intro he
          exact hnd.1 (he ▸ List.mem_map_of_mem (fun q => q.1) h)
        rw [aget, if_neg hne]
        exact ih hnd.2 q h

/-! ### The resolver preservation relation -/

theorem Evolves.refl (s : CState) : Evolves s s :=
  ⟨rfl, fun _ h => h, fun _ => ⟨fun _ h => h, fun h => h⟩⟩

theorem Evolves.trans {s t u : CState} (h1 : Evolves s t)
    (h2 : Evolves t u) : Evolves s u := by
  obtain ⟨hp1, hs1, hc1⟩ := h1
  obtain ⟨hp2, hs2, hc2⟩ := h2
  refine ⟨hp2.trans hp1, fun x hx => hs2 x (hs1 x hx), fun hwf => ?_⟩
  have hwf2 : provsWF t := by
    intro q hq
    exact hwf q (by rw [hp1] at hq; exact hq)
  exact ⟨fun x hx => (hc2 hwf2).1 x ((hc1 hwf).1 x hx),
    fun ht => (hc2 hwf2).2 ((hc1 hwf).2 ht)⟩

/-- States that agree on the four components `Evolves` reads are related
(resolver steps that only touch `injections`, `fresh`, `events`,
`shouldShare`, `sharedWith` or `errorHandler`). -/
theorem Evolves.of_core_eq {s s' : CState}
    (hp : s'.providers = s.providers) (hb : s'.bindings = s.bindings)
    (hr : s'.resolved = s.resolved) (hsh : s'.sharable = s.sharable) :
    Evolves s s' := by
  refine ⟨hp, fun x hx => hsh ▸ hx, fun _ => ⟨fun x hx => ?_, fun ht => ?_⟩⟩
  · simpa [isBound, hb] using hx
  · intro a v hv htr
    have := ht a v (by rw [← hr]; exact hv) htr
    simpa [isBound, hb] using this

/-- `Evolves` from its unconditional parts: equal providers, monotone
boundness, a shrinking resolved map and a monotone sharable list. -/
theorem Evolves.of_parts {s s' : CState}
    (hp : s'.providers = s.providers)
    (hbm : ∀ x, isBound s x = true → isBound s' x = true)
    (hr : ∀ x v, aget s'.resolved x = some v → aget s.resolved x = some v)
    (hsh : ∀ x, x ∈ s.sharable → x ∈ s'.sharable) : Evolves s s' := by
  refine ⟨hp, hsh, fun _ => ⟨hbm, fun ht a v hv htr => ?_⟩⟩
  exact hbm a (ht a v (hr a v hv) htr)

theorem handleError_snd (s : CState) (e : Value) :
    (handleError s e).2 = s := by
  cases h : s.errorHandler <;> simp [handleError, h]

theorem makeConcrete_snd (s : CState) (c : Callable) (inj : List Value) :
    (makeConcrete s c inj).2 =
      { s with fresh := s.fresh + 1
               events := s.events ++ [.invoked c.src] } := by
  cases h : c.invoke inj s.fresh with
  | ret v => cases v <;> simp [makeConcrete, h]
  | thr e => simp [makeConcrete, h, handleError_snd]

theorem Evolves_makeConcrete (s : CState) (c : Callable) (inj : List Value) :
    Evolves s (makeConcrete s c inj).2 := by
  rw [makeConcrete_snd]
  exact Evolves.of_core_eq rfl rfl rfl rfl

theorem unShare_fields (s : CState) (a : String) :
    (unShare s a).providers = s.providers ∧
      (unShare s a).bindings = s.bindings ∧
      (unShare s a).resolved = s.resolved ∧
      (unShare s a).sharable = s.sharable := by
  cases h : aget s.sharedWith a <;> simp [unShare, h]

theorem destroyReference_sub (m : List (String × Value)) (a x : String)
    (v : Value) (h : aget (destroyReference m a) x = some v) :
    aget m x = some v := by
  cases hm : aget m a with
  | none => simpa [destroyReference, hm] using h
  | some w =>
      by_cases ht : truthy w
      · simp [destroyReference, hm, ht] at h
        by_cases hx : a = x
        · subst hx
          rw [aget_adel_self] at h
          exact absurd h (by simp)
        · rwa [aget_adel_ne _ _ _ hx] at h
      · simpa [destroyReference, hm, ht] using h

theorem destroy_fields (s : CState) (a : String) :
    (destroy s a).2.providers = s.providers ∧
      (destroy s a).2.bindings = s.bindings ∧
      (destroy s a).2.sharable = s.sharable := by
  by_cases h : isResolved s a = true
  · obtain ⟨h1, h2, _, h4⟩ := unShare_fields s a
    simp [destroy, h, h1, h2, h4]
  · simp [destroy, h]

theorem destroy_resolved_sub (s : CState) (a x : String) (v : Value)
    (h : aget (destroy s a).2.resolved x = some v) :
    aget s.resolved x = some v := by
  by_cases hr : isResolved s a = true
  · obtain ⟨_, _, h3, _⟩ := unShare_fields s a
    simp only [destroy, hr, if_true] at h
    rw [← h3]
    exact destroyReference_sub _ _ _ _ (by simpa using h)
  · simpa [destroy, hr] using h

theorem destroy_isBound (s : CState) (a x : String) :
    isBound (destroy s a).2 x = isBound s x := by
  rw [isBound, isBound, (destroy_fields s a).2.1]

theorem Evolves_destroy (s : CState) (a : String) :
    Evolves s (destroy s a).2 := by
  obtain ⟨h1, _, h3⟩ := destroy_fields s a
  exact Evolves.of_parts h1 (fun x hx => by rwa [destroy_isBound])
    (destroy_resolved_sub s a) (fun x hx => h3 ▸ hx)

theorem bind_fields (s : CState) (a : String) (b : BindingV) (sh : Bool) :
    (bind s a b sh).providers = s.providers ∧
      (bind s a b sh).bindings = aset s.bindings a b ∧
      (bind s a b sh).resolved = s.resolved := by
  simp only [bind]
  split <;> exact ⟨rfl, rfl, rfl⟩

theorem bind_sharable_mono (s : CState) (a : String) (b : BindingV)
    (sh : Bool) (x : String) (hx : x ∈ s.sharable) :
    x ∈ (bind s a b sh).sharable := by
  simp only [bind]
  split
  · exact List.mem_append_left _ hx
  · exact hx

theorem bind_sharable_false (s : CState) (a : String) (b : BindingV) :
    (bind s a b false).sharable = s.sharable := by
  simp [bind]

theorem bind_isBound_mono (s : CState) (a : String) (b : BindingV)
    (sh : Bool) (hb : issetB b = true) (x : String)
    (hx : isBound s x = true) : isBound (bind s a b sh) x = true := by
  rw [isBound, (bind_fields s a b sh).2.1]
  by_cases hax : a = x
  · subst hax
    rw [aget_aset_self]
    exact hb
  · rw [aget_aset_ne _ _ _ _ hax]
    exact hx

theorem Evolves_bind (s : CState) (a : String) (b : BindingV) (sh : Bool)
    (hb : issetB b = true) : Evolves s (bind s a b sh) := by
  obtain ⟨h1, _, h3⟩ := bind_fields s a b sh
  exact Evolves.of_parts h1 (bind_isBound_mono s a b sh hb)
    (fun x v hv => h3 ▸ hv) (bind_sharable_mono s a b sh)

theorem applyBinds_fields (acts : List (String × BindingV × Bool)) :
    ∀ s : CState, (applyBinds s acts).providers = s.providers ∧
      (applyBinds s acts).resolved = s.resolved := by
  induction acts with
  | nil => exact fun s => ⟨rfl, rfl⟩
  | cons act rest ih =>
      intro s
      obtain ⟨h1, h2⟩ := ih (bind s act.1 act.2.1 act.2.2)
      obtain ⟨g1, _, g3⟩ := bind_fields s act.1 act.2.1 act.2.2
      exact ⟨by rw [applyBinds, List.foldl_cons, ← applyBinds, h1, g1],
        by rw [applyBinds, List.foldl_cons, ← applyBinds, h2, g3]⟩

theorem applyBinds_sharable_mono (acts : List (String × BindingV × Bool)) :
    ∀ (s : CState) (x : String), x ∈ s.sharable →
      x ∈ (applyBinds s acts).sharable := by
  induction acts with
  | nil => exact fun s x hx => hx
  | cons act rest ih =>
      intro s x hx
      rw [applyBinds, List.foldl_cons, ← applyBinds]
      exact ih _ x (bind_sharable_mono s act.1 act.2.1 act.2.2 x hx)

theorem applyBinds_isBound_mono (acts : List (String × BindingV × Bool))
    (hall : acts.all (fun act => issetB act.2.1) = true) :
    ∀ (s : CState) (x : String), isBound s x = true →
      isBound (applyBinds s acts) x = true := by
  induction acts with
  | nil => exact fun s x hx => hx
  | cons act rest ih =>
      rw [List.all_cons, Bool.and_eq_true] at hall
      intro s x hx
      rw [applyBinds, List.foldl_cons, ← applyBinds]
      exact ih hall.2 _ x (bind_isBound_mono s act.1 act.2.1 act.2.2 hall.1 x hx)

theorem Evolves_applyBinds (s : CState) (acts : List (String × BindingV × Bool))
    (hall : acts.all (fun act => issetB act.2.1) = true) :
    Evolves s (applyBinds s acts) := by
  obtain ⟨h1, h2⟩ := applyBinds_fields acts s
  exact Evolves.of_parts h1 (applyBinds_isBound_mono acts hall s)
    (fun x v hv => h2 ▸ hv) (applyBinds_sharable_mono acts s)

theorem findProvider_mem (s : CState) (a : String) (p : Provider)
    (h : findProvider s a = some p) : ∃ k, (k, p) ∈ s.providers := by
  have hmem : p ∈ s.providers.map (fun q => q.2) :=
    List.mem_of_find?_eq_some h
  obtain ⟨q, hq, hq2⟩ := List.mem_map.mp hmem
  refine ⟨q.1, ?_⟩
  rw [← hq2]
  exact hq

theorem Evolves_bootProvider (s : CState) (a : String) (p : Provider)
    (hp : findProvider s a = some p) : Evolves s (bootProvider s p) := by
  obtain ⟨h1, h2⟩ :=
    applyBinds_fields p.loadActions
      { s with events := s.events ++ [.load p.name] }
  refine ⟨h1, fun x hx => applyBinds_sharable_mono _ _ x hx, fun hwf => ?_⟩
  obtain ⟨k, hk⟩ := findProvider_mem s a p hp
  have hpwf := hwf (k, p) hk
  rw [provWF, Bool.and_eq_true] at hpwf
  have hbm : ∀ x, isBound s x = true → isBound (bootProvider s p) x = true :=
    fun x hx => applyBinds_isBound_mono _ hpwf.2 _ x hx
  refine ⟨hbm, fun ht a' v hv htr => hbm a' (ht a' v (h2 ▸ hv) htr)⟩

theorem setInstance_fields (s : CState) (a : String) (v : Value) (sh : Bool) :
    (setInstance s a v sh).2.providers = s.providers ∧
      (setInstance s a v sh).2.bindings = s.bindings ∧
      (setInstance s a v sh).2.resolved = aset s.resolved a v := by
  simp only [setInstance]
  split <;> exact ⟨rfl, rfl, rfl⟩

theorem setInstance_sharable_mono (s : CState) (a : String) (v : Value)
    (sh : Bool) (x : String) (hx : x ∈ s.sharable) :
    x ∈ (setInstance s a v sh).2.sharable := by
  simp only [setInstance]
  split
  · exact List.mem_append_left _ hx
  · exact hx

theorem setInstance_sharable_self (s : CState) (a : String) (v : Value) :
    a ∈ (setInstance s a v true).2.sharable := by
  simp only [setInstance]
  split
  · exact List.mem_append_right _ (by simp)
  · next h =>
      simp at h
      exact h

theorem setInstance_isBound (s : CState) (a : String) (v : Value) (sh : Bool)
    (x : String) : isBound (setInstance s a v sh).2 x = isBound s x := by
  rw [isBound, isBound, (setInstance_fields s a v sh).2.1]

theorem injectDeps_Evolves (recur : CState → String → Res)
    (hrec : ∀ st a, Evolves st (recur st a).2) (al : String) :
    ∀ (ds : List String) (s : CState) (acc : List Value),
      Evolves s (injectDeps recur al ds s acc).2 := by
  intro ds
  induction ds with
  | nil => exact fun s acc => Evolves.refl s
  | cons d rest ih =>
      intro s acc
      rw [injectDeps]
      by_cases hc : s.injections.contains d = true
      · rw [if_pos hc]
        exact Evolves.refl s
      · rw [if_neg hc]
        rcases hr : recur { s with injections := s.injections ++ [d] } d
          with ⟨r, s2⟩
        have h1 : Evolves s { s with injections := s.injections ++ [d] } :=
          Evolves.of_core_eq rfl rfl rfl rfl
        have h2 : Evolves { s with injections := s.injections ++ [d] } s2 := by
          have := hrec { s with injections := s.injections ++ [d] } d
          rw [hr] at this
          exact this
        cases r with
        | ok v =>
            have h3 : Evolves s2
                { s2 with injections := s2.injections.erase d } :=
              Evolves.of_core_eq rfl rfl rfl rfl
            exact ((h1.trans h2).trans h3).trans
              (ih { s2 with injections := s2.injections.erase d } (acc ++ [v]))
        | error e => exact h1.trans h2

theorem resolveIfNotResolved_Evolves (recur : CState → String → Res)
    (hrec : ∀ st a, Evolves st (recur st a).2) (s : CState) (al : String) :
    Evolves s (resolveIfNotResolved recur s al).2 := by
  rw [resolveIfNotResolved]
  cases hb : aget s.bindings al with
  | none => exact Evolves.refl s
  | some b =>
      cases b with
      | val v => exact Evolves.refl s
      | fn c =>
          show Evolves s
            ((match injectDeps recur al (readArguments c.src) s [] with
              | (.ok inj, s1) => makeConcrete s1 c inj
              | (.error e, s1) => (.error e, s1)).2)
          rcases hi : injectDeps recur al (readArguments c.src) s []
            with ⟨r, s1⟩
          have h1 : Evolves s s1 := by
            have := injectDeps_Evolves recur hrec al (readArguments c.src) s []
            rw [hi] at this
            exact this
          cases r with
          | ok inj => exact h1.trans (Evolves_makeConcrete s1 c inj)
          | error e => exact h1

theorem resolveFuel_Evolves :
    ∀ (fuel : Nat) (s : CState) (a : String) (rb : Bool),
      Evolves s (resolveFuel fuel s a rb).2 := by
  intro fuel
  induction fuel with
  | zero => exact fun s a rb => Evolves.refl s
  | succ n ih =>
      intro s a rb
      rw [resolveFuel]
      by_cases h1 : (isResolved s a && canShare s a && !rb) = true
      · rw [if_pos h1]
        exact Evolves.refl s
      · rw [if_neg h1]
        set s1 := if rb then (destroy s a).2 else s with hs1
        have e1 : Evolves s s1 := by
          rw [hs1]
          by_cases hrb : rb = true
          · rw [if_pos hrb]
            exact Evolves_destroy s a
          · rw [if_neg hrb]
            exact Evolves.refl s
        by_cases h2 : (!isBound s1 a) = true
        · rw [if_pos h2]
          have hhe := handleError_snd s1 (makeException "Binding Exception"
            ("No Binding found for \"" ++ a ++ "\"."))
          rw [hhe]
          exact e1
        · rw [if_neg h2]
          set s2 := (match findProvider s1 a with
            | some p => if p.isDeferred then bootProvider s1 p else s1
            | none => s1) with hs2
          have e2 : Evolves s1 s2 := by
            rw [hs2]
            cases hp : findProvider s1 a with
            | none => exact Evolves.refl s1
            | some p =>
                show Evolves s1
                  (if p.isDeferred = true then bootProvider s1 p else s1)
                by_cases hd : p.isDeferred = true
                · rw [if_pos hd]
                  exact Evolves_bootProvider s1 a p hp
                · rw [if_neg hd]
                  exact Evolves.refl s1
          show Evolves s
            ((match resolveIfNotResolved
                (fun st a2 => resolveFuel n st a2 false) s2 a with
              | (.ok inst, s3) =>
                  if canShare s3 a = true then
                    ((Except.ok inst : Except Value Value),
                      (setInstance s3 a inst true).2)
                  else (.ok inst, s3)
              | (.error e, s3) => (.error e, s3)).2)
          rcases hrr : resolveIfNotResolved
              (fun st a2 => resolveFuel n st a2 false) s2 a with ⟨r, s3⟩
          have e3 : Evolves s2 s3 := by
            have := resolveIfNotResolved_Evolves _
              (fun st a2 => ih st a2 false) s2 a
            rw [hrr] at this
            exact this
          have eAll : Evolves s s3 := (e1.trans e2).trans e3
          cases r with
          | error e => exact eAll
          | ok inst =>
              show Evolves s
                ((if canShare s3 a = true
                  then ((Except.ok inst : Except Value Value),
                    (setInstance s3 a inst true).2)
                  else (.ok inst, s3)).2)
              by_cases hc : canShare s3 a = true
              · rw [if_pos hc]
                obtain ⟨f1, f2, f3⟩ := setInstance_fields s3 a inst true
                have hbound1 : isBound s1 a = true := by
                  simpa using h2
                have hbound_s : isBound s a = true := by
                  rw [hs1] at hbound1
                  by_cases hrb : rb = true
                  · rw [if_pos hrb] at hbound1
                    rwa [destroy_isBound] at hbound1
                  · rwa [if_neg hrb] at hbound1
                refine ⟨by rw [f1, eAll.1], fun x hx =>
                  setInstance_sharable_mono s3 a inst true x (eAll.2.1 x hx),
                  fun hwf => ?_⟩
                have hmono := (eAll.2.2 hwf).1
                have hTRB := (eAll.2.2 hwf).2
                have hbound3 : isBound s3 a = true := hmono a hbound_s
                refine ⟨fun x hx => by
                    rw [setInstance_isBound]
                    exact hmono x hx, fun ht => ?_⟩
                have ht3 := hTRB ht
                intro x v hv htr
                rw [setInstance_isBound]
                rw [f3] at hv
                by_cases hax : a = x
                · subst hax
                  exact hbound3
                · rw [aget_aset_ne _ _ _ _ hax] at hv
                  exact ht3 x v hv htr
              · rw [if_neg hc]
                exact eAll

theorem resolveFuel_canShare (f : Nat) (s : CState) (a rb1 : String)
    (rb : Bool) (h : canShare s a = true) :
    canShare (resolveFuel f s rb1 rb).2 a = true := by
  have hm : a ∈ s.sharable := by simpa [canShare] using h
  have := (resolveFuel_Evolves f s rb1 rb).2.1 a hm
  simpa [canShare] using this

/-! ### C1: singleton caching versus unshared re-resolution -/

/-- Single unshared resolution step used by C1: an alias that is not
sharable, bound to a dependency-free constructor that allocates a fresh
object, is resolved by invoking the factory on the current fresh id. -/
theorem c1_unshared_step (s : CState) (A : String) (f : Nat) (c : Callable)
    (hcs : canShare s A = false)
    (hb : aget s.bindings A = some (.fn c))
    (hread : readArguments c.src = [])
    (hinv : ∀ vs n, c.invoke vs n = .ret (some (.obj n)))
    (hfp : findProvider s A = none) :
    resolveFuel (f + 1) s A false =
      (.ok (.obj s.fresh),
        { s with fresh := s.fresh + 1
                 events := s.events ++ [.invoked c.src] }) := by
  have hbound : isBound s A = true := by simp [isBound, hb, issetB]
  have hcs2 : A ∉ s.sharable := by simpa [canShare] using hcs
  simp [resolveFuel, resolveIfNotResolved, injectDeps, makeConcrete,
    canShare, hcs2, hb, hread, hinv, hfp, hbound]

/-- `_resolve` with `rebound = false` (the `make` path), with the
rebound-only destruction step simplified away. -/
theorem resolveFuel_succ_false (n : Nat) (s : CState) (a : String) :
    resolveFuel (n + 1) s a false =
      if isResolved s a && canShare s a then
        (.ok (getInstance s a), s)
      else if !isBound s a then
        handleError s (makeException "Binding Exception"
          ("No Binding found for \"" ++ a ++ "\"."))
      else
        match resolveIfNotResolved (fun st a2 => resolveFuel n st a2 false)
            (match findProvider s a with
             | some p => if p.isDeferred then bootProvider s p else s
             | none => s) a with
        | (.ok inst, s3) =>
            if canShare s3 a then
              (.ok inst, (setInstance s3 a inst true).2)
            else (.ok inst, s3)
        | (.error e, s3) => (.error e, s3) := by
  rw [resolveFuel]
  simp only [Bool.not_false, Bool.and_true, Bool.false_eq_true, if_false]

/-- The tail of `_resolve` for a sharable alias: whatever the cache-miss
path produced, a returned instance is cached by `setInstance`, so a
following `make` hits the cache fast path. -/
theorem c1_tail (f g : Nat) (s s2 : CState) (A : String) (v : Value)
    (s' : CState) (hcsA : canShare s A = true) (hev : Evolves s s2)
    (hrun : (match resolveIfNotResolved
        (fun st a2 => resolveFuel f st a2 false) s2 A with
      | (.ok inst, s3) =>
          if canShare s3 A then (.ok inst, (setInstance s3 A inst true).2)
          else ((.ok inst : Except Value Value), s3)
      | (.error e, s3) => (.error e, s3)) = (.ok v, s'))
    (hiss : issetVal v = true) :
    resolveFuel (g + 1) s' A false = (.ok v, s') := by
  rcases hrr : resolveIfNotResolved (fun st a2 => resolveFuel f st a2 false)
      s2 A with ⟨r, s3⟩
  rw [hrr] at hrun
  cases r with
  | error e => simp at hrun
  | ok inst =>
      have hev3 : Evolves s s3 := by
        have := resolveIfNotResolved_Evolves _
          (fun st a2 => resolveFuel_Evolves f st a2 false) s2 A
        rw [hrr] at this
        exact hev.trans this
      have hc3 : canShare s3 A = true := by
        have hm : A ∈ s.sharable := by simpa [canShare] using hcsA
        have := hev3.2.1 A hm
        simpa [canShare] using this
      simp only [hc3, if_true, Prod.mk.injEq, Except.ok.injEq] at hrun
      obtain ⟨h1, h2⟩ := hrun
      subst h1
      have hres : aget s'.resolved A = some inst := by
        rw [← h2, (setInstance_fields s3 A inst true).2.2, aget_aset_self]
      have hres2 : isResolved s' A = true := by
        rw [isResolved, hres]
        cases inst <;> simp [issetVal, issetV] at hiss ⊢
      have hcs' : canShare s' A = true := by
        have : A ∈ s'.sharable := by
          rw [← h2]
          exact setInstance_sharable_self s3 A inst
        simpa [canShare] using this
      rw [resolveFuel_succ_false]
      rw [if_pos (by simp [hres2, hcs'])]
      simp [getInstance, hres]

/-- C1: binding an alias with `shared = true` makes two consecutive
`make` calls (no intervening `unBind`/`rebound`/`destroy`) return the
identical cached instance: whenever the first resolve of a bound,
sharable alias returns a set instance `v` with final state `s'`, a second
resolve returns the same `v` and leaves the state unchanged.  For an
alias that is not sharable (bound with `shared = false` and never marked
sharable), bound to a dependency-free constructor that allocates a fresh
object, each `make` re-invokes the factory (one more `invoked` event per
call) and the two calls return distinct fresh instances. -/
theorem claim_C1 :
    (∀ (s : CState) (A : String) (f g : Nat) (v : Value) (s' : CState),
      canShare s A = true → isBound s A = true →
      resolveFuel (f + 1) s A false = (.ok v, s') → issetVal v = true →
      resolveFuel (g + 1) s' A false = (.ok v, s')) ∧
    (∀ (s : CState) (A : String) (f g : Nat) (c : Callable),
      canShare s A = false →
      aget s.bindings A = some (.fn c) →
      readArguments c.src = [] →
      (∀ vs n, c.invoke vs n = .ret (some (.obj n))) →
      findProvider s A = none →
      resolveFuel (f + 1) s A false =
        (.ok (.obj s.fresh),
          { s with fresh := s.fresh + 1
                   events := s.events ++ [.invoked c.src] }) ∧
      resolveFuel (g + 1)
          { s with fresh := s.fresh + 1
                   events := s.events ++ [.invoked c.src] } A false =
        (.ok (.obj (s.fresh + 1)),
          { s with fresh := s.fresh + 1 + 1
                   events := (s.events ++ [.invoked c.src])
                     ++ [.invoked c.src] }) ∧
      (Value.obj s.fresh) ≠ (Value.obj (s.fresh + 1))) := by
  constructor
  · intro s A f g v s' hcs hbound hrun hiss
    by_cases hres : isResolved s A = true
    · rw [resolveFuel_succ_false] at hrun
      rw [if_pos (by simp [hres, hcs])] at hrun
      simp only [Prod.mk.injEq, Except.ok.injEq] at hrun
      obtain ⟨h1, h2⟩ := hrun
      subst h2
      rw [resolveFuel_succ_false]
      rw [if_pos (by simp [hres, hcs])]
      rw [h1]
    · rw [resolveFuel_succ_false] at hrun
      rw [if_neg (by simp [hres])] at hrun
      rw [if_neg (by simp [hbound])] at hrun
      rcases hfp : findProvider s A with _ | p
      · simp only [hfp] at hrun
        exact c1_tail f g s s A v s' hcs (Evolves.refl s) hrun hiss
      · simp only [hfp] at hrun
        by_cases hd : p.isDeferred = true
        · rw [if_pos hd] at hrun
          exact c1_tail f g s (bootProvider s p) A v s' hcs
            (Evolves_bootProvider s A p hfp) hrun hiss
        · rw [if_neg hd] at hrun
          exact c1_tail f g s s A v s' hcs (Evolves.refl s) hrun hiss
  · intro s A f g c hcs hb hread hinv hfp
    have h1 := c1_unshared_step s A f c hcs hb hread hinv hfp
    refine ⟨h1, ?_, by simp⟩
    exact c1_unshared_step _ A g c hcs hb hread hinv hfp

theorem claim_C1_witness :
    (resolveFuel 1 sC1r "A" false = (.ok (.obj 0), sC1r)) ∧
    (resolveFuel 1 sC1u "A" false =
        (.ok (.obj sC1u.fresh),
          { sC1u with fresh := sC1u.fresh + 1
                      events := sC1u.events ++ [.invoked cFreshW.src] }) ∧
      resolveFuel 1
          { sC1u with fresh := sC1u.fresh + 1
                      events := sC1u.events ++ [.invoked cFreshW.src] }
          "A" false =
        (.ok (.obj (sC1u.fresh + 1)),
          { sC1u with fresh := sC1u.fresh + 1 + 1
                      events := (sC1u.events ++ [.invoked cFreshW.src])
                        ++ [.invoked cFreshW.src] }) ∧
      (Value.obj sC1u.fresh) ≠ (Value.obj (sC1u.fresh + 1))) :=
  ⟨claim_C1.1 sC1 "A" 0 0 (.obj 0) sC1r (by rfl) (by rfl) (by rfl) (by rfl),
   claim_C1.2 sC1u "A" 0 0 cFreshW (by rfl) (by rfl) (by rfl)
     (fun _ _ => rfl) (by rfl)⟩

/-! ### C2: circular dependency detection -/

theorem isResolved_update_inj (s : CState) (l : List String) (a : String) :
    isResolved { s with injections := l } a = isResolved s a := rfl

theorem isBound_update_inj (s : CState) (l : List String) (a : String) :
    isBound { s with injections := l } a = isBound s a := rfl

theorem findProvider_update_inj (s : CState) (l : List String) (a : String) :
    findProvider { s with injections := l } a = findProvider s a := rfl

/-- C2: for a pair of bindings whose factories declare each other as
dependency (`A` requires `B`, `B` requires `A`), with neither alias
already resolved and no provider supplying them, `make(A)` fails with a
Circular Dependency Exception whose message carries the in-flight chain
`B, A`; no factory is ever invoked (the `events` list is unchanged, so
the second resolution of `A` performs no instantiation side effect), and
the injection stack is left holding the chain. -/
theorem claim_C2 (s : CState) (A B : String) (cA cB : Callable) (fuel : Nat)
    (hAB : A ≠ B)
    (hbA : aget s.bindings A = some (.fn cA))
    (hbB : aget s.bindings B = some (.fn cB))
    (hrA : readArguments cA.src = [B])
    (hrB : readArguments cB.src = [A])
    (hinj : s.injections = [])
    (hresA : isResolved s A = false)
    (hresB : isResolved s B = false)
    (hfpA : findProvider s A = none)
    (hfpB : findProvider s B = none) :
    resolveFuel (fuel + 3) s A false =
      (.error (makeException "Circular Dependency Exception"
        (A ++ " requires " ++ String.intercalate ", " [B, A])),
       { s with injections := [B, A] }) := by
  have hBA : B ≠ A := fun h => hAB h.symm
  have hbnA : isBound s A = true := by simp [isBound, hbA, issetB]
  have hbnB : isBound s B = true := by simp [isBound, hbB, issetB]
  simp [resolveFuel, resolveIfNotResolved, injectDeps,
    isResolved_update_inj, isBound_update_inj, findProvider_update_inj,
    hbA, hbB, hrA, hrB, hinj, hAB, hBA, hresA, hresB, hfpA, hfpB,
    hbnA, hbnB]

theorem claim_C2_witness :
    resolveFuel 3 sC2 "A" false =
      (.error (makeException "Circular Dependency Exception"
        ("A" ++ " requires " ++ String.intercalate ", " ["B", "A"])),
       { sC2 with injections := ["B", "A"] }) :=
  claim_C2 sC2 "A" "B" cA2 cB2 0 (by decide) (by rfl) (by rfl) (by rfl)
    (by rfl) (by rfl) (by rfl) (by rfl) (by rfl) (by rfl)

/-! ### C3: error routing through handleError -/

/-- C3 counterexample: the claim says every raised failure is routed
through `handleError` so that, with a handler installed, no error escapes
the container.  Here a handler is installed, yet `make('A')` on the
circular pair ends in a thrown Circular Dependency Exception: the throw
in `_prepareForInjection` bypasses `handleError` entirely. -/
theorem claim_C3_counterexample :
    sC3.errorHandler.isSome = true ∧
    (resolveFuel 3 sC3 "A" false).1 =
      .error (makeException "Circular Dependency Exception"
        ("A" ++ " requires " ++ String.intercalate ", " ["B", "A"])) := by
  exact ⟨rfl, rfl⟩

/-- C3 (amended): unbound-alias failures and exceptions thrown during
factory instantiation are routed through `handleError` — with a handler
installed its `handle(error)` return value becomes the resolved value,
and with no handler the original error propagates to the caller.
(Circular-dependency errors, by contrast, bypass the handler: see the
counterexample.) -/
theorem claim_C3 :
    (∀ (s : CState) (a : String) (h : Value → Value) (f : Nat),
      s.errorHandler = some h → isResolved s a = false →
      isBound s a = false →
      resolveFuel (f + 1) s a false =
        (.ok (h (makeException "Binding Exception"
          ("No Binding found for \"" ++ a ++ "\"."))), s)) ∧
    (∀ (s : CState) (a : String) (f : Nat),
      s.errorHandler = none → isResolved s a = false →
      isBound s a = false →
      resolveFuel (f + 1) s a false =
        (.error (makeException "Binding Exception"
          ("No Binding found for \"" ++ a ++ "\".")), s)) ∧
    (∀ (s : CState) (a : String) (h : Value → Value) (c : Callable)
        (e : Value) (f : Nat),
      s.errorHandler = some h → canShare s a = false →
      aget s.bindings a = some (.fn c) → readArguments c.src = [] →
      (∀ vs n, c.invoke vs n = .thr e) → findProvider s a = none →
      resolveFuel (f + 1) s a false =
        (.ok (h e),
          { s with fresh := s.fresh + 1
                   events := s.events ++ [.invoked c.src] })) ∧
    (∀ (s : CState) (a : String) (c : Callable) (e : Value) (f : Nat),
      s.errorHandler = none → canShare s a = false →
      aget s.bindings a = some (.fn c) → readArguments c.src = [] →
      (∀ vs n, c.invoke vs n = .thr e) → findProvider s a = none →
      resolveFuel (f + 1) s a false =
        (.error e,
          { s with fresh := s.fresh + 1
                   events := s.events ++ [.invoked c.src] })) := by
  refine ⟨fun s a h f hh hres hb => ?_, fun s a f hh hres hb => ?_,
    fun s a h c e f hh hcs hb hread hinv hfp => ?_,
    fun s a c e f hh hcs hb hread hinv hfp => ?_⟩
  · simp [resolveFuel, handleError, hh, hres, hb]
  · simp [resolveFuel, handleError, hh, hres, hb]
  · have hcs2 : a ∉ s.sharable := by simpa [canShare] using hcs
    have hbound : isBound s a = true := by simp [isBound, hb, issetB]
    simp [resolveFuel, resolveIfNotResolved, injectDeps, makeConcrete,
      handleError, canShare, hh, hcs2, hb, hread, hinv, hfp, hbound]
  · have hcs2 : a ∉ s.sharable := by simpa [canShare] using hcs
    have hbound : isBound s a = true := by simp [isBound, hb, issetB]
    simp [resolveFuel, resolveIfNotResolved, injectDeps, makeConcrete,
      handleError, canShare, hh, hcs2, hb, hread, hinv, hfp, hbound]

theorem claim_C3_witness :
    (resolveFuel 1 sC3c "X" false =
      (.ok ((fun _ => Value.null) (makeException "Binding Exception"
        ("No Binding found for \"" ++ "X" ++ "\"."))), sC3c)) ∧
    (resolveFuel 1 sC3b "X" false =
      (.error (makeException "Binding Exception"
        ("No Binding found for \"" ++ "X" ++ "\".")), sC3b)) ∧
    (resolveFuel 1 sC3c "T" false =
      (.ok ((fun _ => Value.null) (Value.exc "Boom" "bang")),
        { sC3c with fresh := sC3c.fresh + 1
                    events := sC3c.events ++ [.invoked cThrow.src] })) ∧
    (resolveFuel 1 sC3b "T" false =
      (.error (.exc "Boom" "bang"),
        { sC3b with fresh := sC3b.fresh + 1
                    events := sC3b.events ++ [.invoked cThrow.src] })) :=
  ⟨claim_C3.1 sC3c "X" (fun _ => .null) 0 rfl rfl rfl,
   claim_C3.2.1 sC3b "X" 0 rfl rfl rfl,
   claim_C3.2.2.1 sC3c "T" (fun _ => .null) cThrow (.exc "Boom" "bang") 0
     rfl rfl rfl rfl (fun _ _ => rfl) rfl,
   claim_C3.2.2.2 sC3b "T" cThrow (.exc "Boom" "bang") 0
     rfl rfl rfl rfl (fun _ _ => rfl) rfl⟩

/-! ### C4: a factory returning undefined -/

/-- C4: the claim says a factory returning `undefined` makes resolution
FAIL with a Binding error.  Evaluating the code at that input shows
`_makeConcrete` instead RETURNS the constructed Binding Exception as the
resolution result (an `ok` outcome, not a raised error, bypassing
`handleError`), and — the alias being sharable — the exception object is
even cached as the resolved instance. -/
theorem claim_C4 :
    (resolveFuel 2 sC4 "U" false).1 =
      .ok (makeException "Binding Exception"
        ("Binding " ++ "function ()" ++
          " failed, return value is undefined.")) ∧
    isResolved (resolveFuel 2 sC4 "U" false).2 "U" = true ∧
    getInstance (resolveFuel 2 sC4 "U" false).2 "U" =
      makeException "Binding Exception"
        ("Binding " ++ "function ()" ++
          " failed, return value is undefined.") := by
  exact ⟨rfl, rfl, rfl⟩

/-! ### C5: the containment invariant over operation sequences -/

theorem truthy_false_of_isset_false (v : Value) (h : issetVal v = false) :
    truthy v = false := by
  cases v <;> simp_all [issetVal, truthy]

theorem destroyReference_ne (m : List (String × Value)) (a x : String)
    (h : x ≠ a) : aget (destroyReference m a) x = aget m x := by
  cases hm : aget m a with
  | none => simp [destroyReference, hm]
  | some w =>
      by_cases ht : truthy w
      · simp [destroyReference, hm, ht, aget_adel_ne m a x (fun hh => h hh.symm)]
      · simp [destroyReference, hm, ht]

theorem destroyReference_self_not_truthy (m : List (String × Value))
    (a : String) (v : Value)
    (h : aget (destroyReference m a) a = some v) : truthy v = false := by
  cases hm : aget m a with
  | none =>
      simp only [destroyReference, hm] at h
      simp [hm] at h
  | some w =>
      by_cases ht : truthy w
      · simp only [destroyReference, hm] at h
        rw [if_pos ht, aget_adel_self] at h
        simp at h
      · simp only [destroyReference, hm] at h
        rw [if_neg ht, hm] at h
        obtain rfl : w = v := by simpa using h
        simpa using ht

theorem destroyReferenceB_ne (m : List (String × BindingV)) (a x : String)
    (h : x ≠ a) : aget (destroyReferenceB m a) x = aget m x := by
  cases hm : aget m a with
  | none => simp [destroyReferenceB, hm]
  | some w =>
      by_cases ht : truthyB w
      · simp [destroyReferenceB, hm, ht, aget_adel_ne m a x (fun hh => h hh.symm)]
      · simp [destroyReferenceB, hm, ht]

theorem destroyReferenceB_self_not_truthy (m : List (String × BindingV))
    (a : String) (b : BindingV)
    (h : aget (destroyReferenceB m a) a = some b) : truthyB b = false := by
  cases hm : aget m a with
  | none =>
      simp only [destroyReferenceB, hm] at h
      simp [hm] at h
  | some w =>
      by_cases ht : truthyB w
      · simp only [destroyReferenceB, hm] at h
        rw [if_pos ht, aget_adel_self] at h
        simp at h
      · simp only [destroyReferenceB, hm] at h
        rw [if_neg ht, hm] at h
        obtain rfl : w = b := by simpa using h
        simpa using ht

theorem unBind_fields (s : CState) (a : String) :
    (unBind s a).providers = s.providers ∧
      (unBind s a).bindings =
        destroyReferenceB (destroy s a).2.bindings a ∧
      (unBind s a).resolved = (destroy s a).2.resolved := by
  obtain ⟨h1, _, _⟩ := destroy_fields s a
  simp only [unBind]
  split <;> exact ⟨h1, rfl, rfl⟩

/-- C5 second conjunct helper: after `unBind(alias)` the resolved map can
only hold a falsy value for that alias. -/
theorem unBind_resolved_not_truthy (s : CState) (a : String) (v : Value)
    (h : aget (unBind s a).resolved a = some v) : truthy v = false := by
  rw [(unBind_fields s a).2.2] at h
  by_cases hr : isResolved s a = true
  · obtain ⟨_, _, h3, _⟩ := unShare_fields s a
    simp only [destroy, hr, if_true] at h
    rw [h3] at h
    exact destroyReference_self_not_truthy _ _ _ h
  · rw [show (destroy s a).2 = s by simp [destroy, hr]] at h
    have : issetV (aget s.resolved a) = false := by
      simpa [isResolved] using hr
    rw [h] at this
    exact truthy_false_of_isset_false v (by simpa [issetV] using this)

/-- C5 third conjunct helper: after `unBind(alias)` the bindings map can
only hold a falsy binding for that alias. -/
theorem unBind_binding_not_truthy (s : CState) (a : String) (b : BindingV)
    (h : aget (unBind s a).bindings a = some b) : truthyB b = false := by
  rw [(unBind_fields s a).2.1] at h
  exact destroyReferenceB_self_not_truthy _ _ _ h

theorem TRB_of_fields {s s' : CState} (hb : s'.bindings = s.bindings)
    (hr : s'.resolved = s.resolved) (h : TRB s) : TRB s' := by
  intro x v hv htr
  rw [isBound, hb]
  rw [hr] at hv
  exact h x v hv htr

theorem provsWF_of_fields {s s' : CState}
    (hp : s'.providers = s.providers) (h : provsWF s) : provsWF s' := by
  intro q hq
  exact h q (hp ▸ hq)

/-- A fold whose step touches neither `providers`, `bindings`,
`resolved` nor `sharable` leaves all four unchanged. -/
theorem foldl_fields {β : Type} (g : CState → β → CState)
    (hg : ∀ st b, (g st b).providers = st.providers ∧
      (g st b).bindings = st.bindings ∧ (g st b).resolved = st.resolved ∧
      (g st b).sharable = st.sharable) :
    ∀ (l : List β) (s : CState),
      (l.foldl g s).providers = s.providers ∧
        (l.foldl g s).bindings = s.bindings ∧
        (l.foldl g s).resolved = s.resolved ∧
        (l.foldl g s).sharable = s.sharable := by
  intro l
  induction l with
  | nil => exact fun s => ⟨rfl, rfl, rfl, rfl⟩
  | cons b rest ih =>
      intro s
      obtain ⟨i1, i2, i3, i4⟩ := ih (g s b)
      obtain ⟨g1, g2, g3, g4⟩ := hg s b
      exact ⟨by rw [List.foldl_cons, i1, g1], by rw [List.foldl_cons, i2, g2],
        by rw [List.foldl_cons, i3, g3], by rw [List.foldl_cons, i4, g4]⟩

theorem shareFold_fields :
    ∀ (aliases : List String) (s : CState),
      (shareFold aliases s).2.providers = s.providers ∧
        (shareFold aliases s).2.bindings = s.bindings ∧
        (shareFold aliases s).2.resolved = s.resolved ∧
        (shareFold aliases s).2.sharable = s.sharable := by
  intro aliases
  induction aliases with
  | nil => exact fun s => ⟨rfl, rfl, rfl, rfl⟩
  | cons a rest ih =>
      intro s
      rw [shareFold]
      by_cases h1 : (!isBound s a) = true
      · rw [if_pos h1]
        rcases hh : handleError s (.exc (containerName ++ " " ++
            ("No binding for " ++ a ++ " available to share.")) "") with ⟨r, s1⟩
        have hs1 : s1 = s := by
          have := handleError_snd s (.exc (containerName ++ " " ++
            ("No binding for " ++ a ++ " available to share.")) "")
          rw [hh] at this
          exact this
        cases r with
        | ok u => rw [hs1]; exact ih s
        | error e => rw [hs1]; exact ⟨rfl, rfl, rfl, rfl⟩
      · rw [if_neg h1]
        by_cases h2 : (!canShare s a) = true
        · rw [if_pos h2]
          rcases hh : handleError s (.exc (containerName ++ " " ++
              (a ++ " is not sharable.")) "") with ⟨r, s1⟩
          have hs1 : s1 = s := by
            have := handleError_snd s (.exc (containerName ++ " " ++
              (a ++ " is not sharable.")) "")
            rw [hh] at this
            exact this
          cases r with
          | ok u => rw [hs1]; exact ih s
          | error e => rw [hs1]; exact ⟨rfl, rfl, rfl, rfl⟩
        · rw [if_neg h2]
          by_cases h3 : s.shouldShare.contains a = true
          · rw [if_pos h3]
            exact ih s
          · rw [if_neg h3]
            exact ih { s with shouldShare := s.shouldShare ++ [a] }

theorem withOthers_fields (s : CState) (ts : List Nat) :
    (withOthers s ts).providers = s.providers ∧
      (withOthers s ts).bindings = s.bindings ∧
      (withOthers s ts).resolved = s.resolved ∧
      (withOthers s ts).sharable = s.sharable := by
  simp only [withOthers]
  by_cases hl : s.shouldShare.length > 0
  · rw [if_pos hl]
    exact foldl_fields _
      (fun st a => foldl_fields _
        (fun st2 tgt => by split <;> exact ⟨rfl, rfl, rfl, rfl⟩) ts st)
      s.shouldShare s
  · rw [if_neg hl]
    exact ⟨rfl, rfl, rfl, rfl⟩

theorem TRB_unBind (s : CState) (a : String) (hT : TRB s) :
    TRB (unBind s a) := by
  intro x v hv htr
  by_cases hax : x = a
  · subst hax
    exact absurd htr (by simp [unBind_resolved_not_truthy s x v hv])
  · rw [(unBind_fields s a).2.2] at hv
    have hv' : aget s.resolved x = some v := destroy_resolved_sub s a x v hv
    have hbx : isBound s x = true := hT x v hv' htr
    rw [isBound, (unBind_fields s a).2.1, (destroy_fields s a).2.1,
      destroyReferenceB_ne _ _ _ hax]
    exact hbx

theorem WF_runRegister (s : CState) (p : Provider) (hp : provWF p = true)
    (hT : TRB s) (hw : provsWF s) :
    TRB (runRegister s p) ∧ provsWF (runRegister s p) := by
  rw [provWF, Bool.and_eq_true] at hp
  have hev := Evolves_applyBinds
    { s with events := s.events ++ [.reg p.name] } p.regActions hp.1
  constructor
  · exact (hev.2.2 hw).2 hT
  · exact provsWF_of_fields
      ((applyBinds_fields p.regActions _).1.trans rfl) hw

theorem WF_bootProvider (s : CState) (p : Provider) (hp : provWF p = true)
    (hT : TRB s) (hw : provsWF s) :
    TRB (bootProvider s p) ∧ provsWF (bootProvider s p) := by
  rw [provWF, Bool.and_eq_true] at hp
  have hev := Evolves_applyBinds
    { s with events := s.events ++ [.load p.name] } p.loadActions hp.2
  constructor
  · exact (hev.2.2 hw).2 hT
  · exact provsWF_of_fields
      ((applyBinds_fields p.loadActions _).1.trans rfl) hw

theorem WF_bootRegisterPhase (names : List String) :
    ∀ s : CState, TRB s → provsWF s →
      TRB (bootRegisterPhase names s) ∧
        provsWF (bootRegisterPhase names s) := by
  induction names with
  | nil => exact fun s hT hw => ⟨hT, hw⟩
  | cons n rest ih =>
      intro s hT hw
      rw [bootRegisterPhase, List.foldl_cons, ← bootRegisterPhase]
      cases hn : aget s.providers n with
      | none => exact ih s hT hw
      | some p =>
          have hp : provWF p = true := hw (n, p) (aget_mem _ _ _ hn)
          obtain ⟨h1, h2⟩ := WF_runRegister s p hp hT hw
          exact ih _ h1 h2

theorem WF_bootLoadPhase (names : List String) :
    ∀ s : CState, TRB s → provsWF s →
      TRB (bootLoadPhase names s) ∧ provsWF (bootLoadPhase names s) := by
  induction names with
  | nil => exact fun s hT hw => ⟨hT, hw⟩
  | cons n rest ih =>
      intro s hT hw
      rw [bootLoadPhase, List.foldl_cons, ← bootLoadPhase]
      cases hn : aget s.providers n with
      | none => exact ih s hT hw
      | some p =>
          show TRB (bootLoadPhase rest
              (if p.isDeferred = true then s else bootProvider s p)) ∧
            provsWF (bootLoadPhase rest
              (if p.isDeferred = true then s else bootProvider s p))
          by_cases hd : p.isDeferred = true
          · rw [if_pos hd]
            exact ih s hT hw
          · rw [if_neg hd]
            have hp : provWF p = true := hw (n, p) (aget_mem _ _ _ hn)
            obtain ⟨h1, h2⟩ := WF_bootProvider s p hp hT hw
            exact ih _ h1 h2

theorem step_WF (s : CState) (op : Op) (hok : opOK op = true)
    (hT : TRB s) (hw : provsWF s) :
    TRB (step s op) ∧ provsWF (step s op) := by
  cases op with
  | bind a b sh =>
      have hb : issetB b = true := hok
      exact ⟨((Evolves_bind s a b sh hb).2.2 hw).2 hT,
        provsWF_of_fields (bind_fields s a b sh).1 hw⟩
  | unBind a =>
      exact ⟨TRB_unBind s a hT, provsWF_of_fields (unBind_fields s a).1 hw⟩
  | setInstance a v sh => simp [opOK] at hok
  | destroy a =>
      exact ⟨((Evolves_destroy s a).2.2 hw).2 hT,
        provsWF_of_fields (destroy_fields s a).1 hw⟩
  | make a =>
      have hev := resolveFuel_Evolves (defaultFuel s) s a false
      exact ⟨(hev.2.2 hw).2 hT, provsWF_of_fields hev.1 hw⟩
  | rebound a =>
      have hev := resolveFuel_Evolves (defaultFuel s) s a true
      exact ⟨(hev.2.2 hw).2 hT, provsWF_of_fields hev.1 hw⟩
  | register p =>
      have hp : provWF p = true := hok
      refine ⟨hT, fun q hq => ?_⟩
      rcases mem_aset s.providers p.name p q hq with h | h
      · rw [h]
        exact hp
      · exact hw q h
  | bootProviders =>
      obtain ⟨h1, h2⟩ := WF_bootRegisterPhase
        (s.providers.map (fun q => q.1)) s hT hw
      exact WF_bootLoadPhase (s.providers.map (fun q => q.1)) _ h1 h2
  | share as =>
      obtain ⟨f1, f2, f3, _⟩ :=
        shareFold_fields as { s with shouldShare := [] }
      exact ⟨TRB_of_fields f2 f3 hT, provsWF_of_fields f1 hw⟩
  | withOthers ts =>
      obtain ⟨f1, f2, f3, _⟩ := withOthers_fields s ts
      exact ⟨TRB_of_fields f2 f3 hT, provsWF_of_fields f1 hw⟩
  | unShare a =>
      obtain ⟨f1, f2, f3, _⟩ := unShare_fields s a
      exact ⟨TRB_of_fields f2 f3 hT, provsWF_of_fields f1 hw⟩
  | setErrorHandler h => exact ⟨hT, hw⟩

theorem runOps_WF (ops : List Op) :
    ∀ s : CState, ops.all opOK = true → TRB s → provsWF s →
      TRB (runOps ops s) ∧ provsWF (runOps ops s) := by
  induction ops with
  | nil => exact fun s _ hT hw => ⟨hT, hw⟩
  | cons op rest ih =>
      intro s hall hT hw
      rw [List.all_cons, Bool.and_eq_true] at hall
      rw [runOps, List.foldl_cons, ← runOps]
      obtain ⟨h1, h2⟩ := step_WF s op hall.1 hT hw
      exact ih _ hall.2 h1 h2

/-- C5 (amended): `unBind(A)` removes any truthy binding and any truthy
cached instance for `A` (a falsy-but-set value, such as `0`, survives in
either map), and the containment "a truthy cached instance exists only
for a currently bound alias" holds after every public operation sequence
that avoids `setInstance` and never stores a null/undefined binding
(directly or through a provider); `setInstance` itself can cache an
instance for an unbound alias, breaking the claimed invariant (see the
counterexample). -/
theorem claim_C5 :
    (∀ ops : List Op, ops.all opOK = true → TRB (runOps ops initState)) ∧
    (∀ (s : CState) (a : String) (v : Value),
      aget (unBind s a).resolved a = some v → truthy v = false) ∧
    (∀ (s : CState) (a : String) (b : BindingV),
      aget (unBind s a).bindings a = some b → truthyB b = false) := by
  refine ⟨fun ops hall => ?_, unBind_resolved_not_truthy,
    unBind_binding_not_truthy⟩
  have hT0 : TRB initState := by
    intro a v hv htr
    simp [initState, aget] at hv
  have hw0 : provsWF initState := by
    intro q hq
    simp [initState] at hq
  exact (runOps_WF ops initState hall hT0 hw0).1

/-- C5 counterexample: (i) `setInstance` caches an instance for an
unbound alias, so the claimed containment fails right after a public
operation; (ii) `unBind('Z')` does not remove a cached falsy instance
(`0`): the alias stays resolved while no longer bound, contradicting
"unBind(A) removes both the binding and any cached resolved instance". -/
theorem claim_C5_counterexample :
    (isResolved sC5a "A" = true ∧ isBound sC5a "A" = false) ∧
    (isResolved sC5b "Z" = true ∧ isBound sC5b "Z" = false) := by
  exact ⟨⟨rfl, rfl⟩, ⟨rfl, rfl⟩⟩

theorem claim_C5_witness :
    TRB (runOps opsC5 initState) ∧
    truthy (.num 0) = false ∧
    truthyB (.val (.num 0)) = false :=
  ⟨claim_C5.1 opsC5 (by rfl),
   claim_C5.2.1 sC5pre "Z" (.num 0) (by rfl),
   claim_C5.2.2 (bind initState "Y" (.val (.num 0)) true) "Y"
     (.val (.num 0)) (by rfl)⟩

/-! ### C9 and C10: the sharable set and stale cached instances -/

theorem unBind_sharable_mono (s : CState) (x a : String) (hne : a ≠ x)
    (ha : a ∈ s.sharable) : a ∈ (unBind s x).sharable := by
  have h3 : (destroy s x).2.sharable = s.sharable := (destroy_fields s x).2.2
  simp only [unBind]
  split
  · exact (List.mem_erase_of_ne hne).mpr (by rw [h3]; exact ha)
  · show a ∈ (destroy s x).2.sharable
    rw [h3]
    exact ha

theorem bootRegisterPhase_sharable_mono (names : List String) :
    ∀ (s : CState) (a : String), a ∈ s.sharable →
      a ∈ (bootRegisterPhase names s).sharable := by
  induction names with
  | nil => exact fun s a ha => ha
  | cons n rest ih =>
      intro s a ha
      rw [bootRegisterPhase, List.foldl_cons, ← bootRegisterPhase]
      cases hn : aget s.providers n with
      | none => exact ih s a ha
      | some p =>
          exact ih _ a (applyBinds_sharable_mono p.regActions _ a ha)

theorem bootLoadPhase_sharable_mono (names : List String) :
    ∀ (s : CState) (a : String), a ∈ s.sharable →
      a ∈ (bootLoadPhase names s).sharable := by
  induction names with
  | nil => exact fun s a ha => ha
  | cons n rest ih =>
      intro s a ha
      rw [bootLoadPhase, List.foldl_cons, ← bootLoadPhase]
      cases hn : aget s.providers n with
      | none => exact ih s a ha
      | some p =>
          show a ∈ (bootLoadPhase rest
            (if p.isDeferred = true then s else bootProvider s p)).sharable
          by_cases hd : p.isDeferred = true
          · rw [if_pos hd]
            exact ih s a ha
          · rw [if_neg hd]
            exact ih _ a (applyBinds_sharable_mono p.loadActions _ a ha)

/-- C9: `bind(alias, binding, shared=false)` leaves the sharable list
exactly unchanged (in particular it never un-marks a previously sharable
alias), and no public operation other than `unBind(alias)` itself ever
removes an alias from the sharable set. -/
theorem claim_C9 :
    (∀ (s : CState) (a : String) (b : BindingV),
      (bind s a b false).sharable = s.sharable) ∧
    (∀ (s : CState) (a : String) (op : Op), op ≠ Op.unBind a →
      a ∈ s.sharable → a ∈ (step s op).sharable) := by
  refine ⟨fun s a b => bind_sharable_false s a b, fun s a op hne ha => ?_⟩
  cases op with
  | bind x b sh => exact bind_sharable_mono s x b sh a ha
  | unBind x =>
      have hax : a ≠ x := fun h => hne (by rw [h])
      exact unBind_sharable_mono s x a hax ha
  | setInstance x v sh => exact setInstance_sharable_mono s x v sh a ha
  | destroy x =>
      show a ∈ (destroy s x).2.sharable
      rw [(destroy_fields s x).2.2]
      exact ha
  | make x => exact (resolveFuel_Evolves (defaultFuel s) s x false).2.1 a ha
  | rebound x => exact (resolveFuel_Evolves (defaultFuel s) s x true).2.1 a ha
  | register p => exact ha
  | bootProviders =>
      exact bootLoadPhase_sharable_mono _ _ a
        (bootRegisterPhase_sharable_mono _ s a ha)
  | share as =>
      show a ∈ (shareFold as { s with shouldShare := [] }).2.sharable
      rw [(shareFold_fields as _).2.2.2]
      exact ha
  | withOthers ts =>
      show a ∈ (withOthers s ts).sharable
      rw [(withOthers_fields s ts).2.2.2]
      exact ha
  | unShare x =>
      show a ∈ (unShare s x).sharable
      rw [(unShare_fields s x).2.2.2]
      exact ha
  | setErrorHandler h => exact ha

theorem claim_C9_witness :
    (bind sC1 "B" (.val (.num 1)) false).sharable = sC1.sharable ∧
    "A" ∈ (step sC1 (.destroy "A")).sharable :=
  ⟨claim_C9.1 sC1 "B" (.val (.num 1)),
   claim_C9.2 sC1 "A" (.destroy "A") (fun h => Op.noConfusion h)
     (by decide)⟩

/-- C10: for an alias that is currently resolved (with a set cached
value) and sharable, re-binding the alias with any new binding and then
resolving it returns the previously cached instance unchanged — `bind`
overwrites the binding but does not invalidate the cached resolved
instance. -/
theorem claim_C10 (s : CState) (a : String) (b : BindingV) (sh : Bool)
    (v : Value) (f : Nat)
    (hres : aget s.resolved a = some v) (hiss : issetVal v = true)
    (hcs : canShare s a = true) :
    resolveFuel (f + 1) (bind s a b sh) a false = (.ok v, bind s a b sh) := by
  have hres' : aget (bind s a b sh).resolved a = some v := by
    rw [(bind_fields s a b sh).2.2]
    exact hres
  have hisr : isResolved (bind s a b sh) a = true := by
    rw [isResolved, hres']
    cases v <;> simp_all [issetVal, issetV]
  have hcs' : canShare (bind s a b sh) a = true := by
    have hm : a ∈ s.sharable := by simpa [canShare] using hcs
    have := bind_sharable_mono s a b sh a hm
    simpa [canShare] using this
  rw [resolveFuel_succ_false, if_pos (by simp [hisr, hcs'])]
  simp [getInstance, hres']

theorem claim_C10_witness :
    resolveFuel 1 (bind sC1r "A" (.val (.num 7)) true) "A" false =
      (.ok (.obj 0), bind sC1r "A" (.val (.num 7)) true) :=
  claim_C10 sC1r "A" (.val (.num 7)) true (.obj 0) 0 (by rfl) (by rfl)
    (by rfl)

/-! ### C6: provider boot discipline -/

theorem bind_events (s : CState) (a : String) (b : BindingV) (sh : Bool) :
    (bind s a b sh).events = s.events := by
  simp only [bind]
  split <;> rfl

theorem applyBinds_events (acts : List (String × BindingV × Bool)) :
    ∀ s : CState, (applyBinds s acts).events = s.events := by
  induction acts with
  | nil => exact fun s => rfl
  | cons act rest ih =>
      intro s
      rw [applyBinds, List.foldl_cons, ← applyBinds, ih, bind_events]

theorem runRegister_events (s : CState) (p : Provider) :
    (runRegister s p).events = s.events ++ [.reg p.name] :=
  applyBinds_events p.regActions _

theorem runRegister_providers (s : CState) (p : Provider) :
    (runRegister s p).providers = s.providers :=
  (applyBinds_fields p.regActions _).1

theorem bootProvider_events (s : CState) (p : Provider) :
    (bootProvider s p).events = s.events ++ [.load p.name] :=
  applyBinds_events p.loadActions _

theorem bootProvider_providers (s : CState) (p : Provider) :
    (bootProvider s p).providers = s.providers :=
  (applyBinds_fields p.loadActions _).1

theorem bootRegisterPhase_events (qs : List (String × Provider)) :
    ∀ s : CState, (∀ q ∈ qs, aget s.providers q.1 = some q.2) →
      (bootRegisterPhase (qs.map (fun q => q.1)) s).events =
        s.events ++ qs.map (fun q => Event.reg q.2.name) ∧
      (bootRegisterPhase (qs.map (fun q => q.1)) s).providers =
        s.providers := by
  induction qs with
  | nil => exact fun s _ => ⟨by simp [bootRegisterPhase], rfl⟩
  | cons q qs ih =>
      intro s hq
      rw [List.map_cons, bootRegisterPhase, List.foldl_cons,
        ← bootRegisterPhase]
      simp only [hq q (List.mem_cons_self q qs)]
      obtain ⟨ih1, ih2⟩ := ih (runRegister s q.2) (fun q' hq' => by
        rw [runRegister_providers]
        exact hq q' (List.mem_cons_of_mem q hq'))
      refine ⟨?_, by rw [ih2, runRegister_providers]⟩
      rw [ih1, runRegister_events]
      simp

theorem bootLoadPhase_events (qs : List (String × Provider)) :
    ∀ s : CState, (∀ q ∈ qs, aget s.providers q.1 = some q.2) →
      (bootLoadPhase (qs.map (fun q => q.1)) s).events =
        s.events ++ (qs.filter (fun q => !q.2.isDeferred)).map
          (fun q => Event.load q.2.name) := by
  induction qs with
  | nil => exact fun s _ => by simp [bootLoadPhase]
  | cons q qs ih =>
      intro s hq
      rw [List.map_cons, bootLoadPhase, List.foldl_cons, ← bootLoadPhase]
      simp only [hq q (List.mem_cons_self q qs)]
      show (bootLoadPhase (qs.map (fun q => q.1))
          (if q.2.isDeferred = true then s else bootProvider s q.2)).events = _
      by_cases hd : q.2.isDeferred = true
      · rw [if_pos hd]
        rw [ih s (fun q' hq' => hq q' (List.mem_cons_of_mem q hq'))]
        rw [List.filter_cons]
        simp [hd]
      · rw [if_neg hd]
        rw [ih (bootProvider s q.2) (fun q' hq' => by
          rw [bootProvider_providers]
          exact hq q' (List.mem_cons_of_mem q hq'))]
        rw [bootProvider_events, List.filter_cons]
        simp [hd]

/-- C6 (amended): `bootProviders` calls every stored provider's
`register()` first (in registration order) and then `load()` on exactly
the non-deferred providers, in the same order — deferred providers are
never booted by `bootProviders`.  A resolution that hits the instance
cache performs no boot at all (the state is unchanged).  However, a
deferred provider is booted on EVERY cache-missing resolution of one of
its provided aliases, so its `load()` can run more than once (see the
counterexample). -/
theorem claim_C6 :
    (∀ s : CState, (s.providers.map (fun q => q.1)).Nodup →
      (bootProviders s).events =
        s.events ++ s.providers.map (fun q => Event.reg q.2.name)
          ++ (s.providers.filter (fun q => !q.2.isDeferred)).map
            (fun q => Event.load q.2.name)) ∧
    (∀ (f : Nat) (s : CState) (a : String),
      isResolved s a = true → canShare s a = true →
      resolveFuel (f + 1) s a false = (.ok (getInstance s a), s)) := by
  constructor
  · intro s hnd
    have h0 := aget_self_of_nodup s.providers hnd
    obtain ⟨e1, p1⟩ := bootRegisterPhase_events s.providers s h0
    have e2 := bootLoadPhase_events s.providers
      (bootRegisterPhase (s.providers.map (fun q => q.1)) s)
      (fun q' hq' => by rw [p1]; exact h0 q' hq')
    rw [bootProviders]
    rw [e2, e1]
  · intro f s a hres hcs
    rw [resolveFuel_succ_false, if_pos (by simp [hres, hcs])]

/-- C6 counterexample: the deferred provider's `load()` runs at BOTH
resolutions of its unshared alias, so `load()` is not invoked exactly
once; `bootProviders` itself correctly never boots it (only the `reg`
event precedes the makes). -/
theorem claim_C6_counterexample :
    sC6.events = [.reg "P", .load "P", .invoked "function ()",
      .load "P", .invoked "function ()"] ∧
    sC6.events.count (.load "P") = 2 := by
  exact ⟨rfl, rfl⟩

theorem claim_C6_witness :
    (bootProviders sC6w).events =
      sC6w.events ++ sC6w.providers.map (fun q => Event.reg q.2.name)
        ++ (sC6w.providers.filter (fun q => !q.2.isDeferred)).map
          (fun q => Event.load q.2.name) ∧
    resolveFuel 1 sC1r "A" false = (.ok (getInstance sC1r "A"), sC1r) :=
  ⟨claim_C6.1 sC6w (by decide), claim_C6.2 0 sC1r "A" (by rfl) (by rfl)⟩

/-! ### C7: the bidirectional pipeline -/

theorem runPipes_handle_map {σ ρ : Type}
    (fgs : List ((σ → σ) × (σ → σ))) :
    ∀ (s : σ) (cb : σ → ρ),
      runPipes (fun p => p.handle)
          (fgs.map (fun q => transformerPipe q.1 q.2)) s cb =
        cb (fgs.foldl (fun st q => q.1 st) s) := by
  induction fgs with
  | nil => exact fun s cb => rfl
  | cons q rest ih =>
      intro s cb
      rw [List.map_cons, runPipes, List.foldl_cons]
      exact ih (q.1 s) cb

theorem runPipes_terminate_map {σ ρ : Type}
    (fgs : List ((σ → σ) × (σ → σ))) :
    ∀ (s : σ) (cb : σ → ρ),
      runPipes (fun p => p.terminate)
          (fgs.map (fun q => transformerPipe q.1 q.2)) s cb =
        cb (fgs.foldl (fun st q => q.2 st) s) := by
  induction fgs with
  | nil => exact fun s cb => rfl
  | cons q rest ih =>
      intro s cb
      rw [List.map_cons, runPipes, List.foldl_cons]
      exact ih (q.2 s) cb

/-- C7: for transformer pipes (each passes a transformed state to its
continuation), `via('handle')` applies the pipes' forward transforms in
array order starting at index 0 and delivers the final state to the
terminal callback, while `via('terminate')` applies the reverse
transforms in reverse array order starting at the last index; with four
pipes that increment on `handle` and decrement on `terminate`,
`send({state:1}).through([P1,P2,P3,P4]).via('handle')` yields `{state:5}`
and the reverse traversal maps `{state:5}` back to `{state:1}`. -/
theorem claim_C7 :
    (∀ (σ ρ : Type) (fgs : List ((σ → σ) × (σ → σ))) (s : σ) (cb : σ → ρ),
      via .handle (fgs.map (fun q => transformerPipe q.1 q.2)) s cb =
        cb (fgs.foldl (fun st q => q.1 st) s) ∧
      via .terminate (fgs.map (fun q => transformerPipe q.1 q.2)) s cb =
        cb (fgs.reverse.foldl (fun st q => q.2 st) s)) ∧
    via .handle [incPipe, incPipe, incPipe, incPipe] { state := 1 } id =
      { state := 5 } ∧
    via .terminate [incPipe, incPipe, incPipe, incPipe] { state := 5 } id =
      { state := 1 } := by
  refine ⟨fun σ ρ fgs s cb => ⟨runPipes_handle_map fgs s cb, ?_⟩, ?_, ?_⟩
  · rw [via]
    rw [← List.map_reverse]
    exact runPipes_terminate_map fgs.reverse s cb
  · rfl
  · rfl

/-! ### C8: dependency-name extraction -/

/-- C8: the code's own documentation (Container.js 507) and the claim say
`_readArguments` skips inline comments; evaluating it shows the comment
text is retained inside the extracted parameter name (first conjunct),
while the whitespace-trimming and empty-entry-filtering parts do hold
(remaining conjuncts). -/
theorem claim_C8 :
    readArguments "function (a /* note */, b)" = ["a /* note */", "b"] ∧
    readArguments "function ( a , b )" = ["a", "b"] ∧
    readArguments "function (a,,b)" = ["a", "b"] ∧
    readArguments "function ()" = [] := by
  exact ⟨rfl, rfl, rfl, rfl⟩

end Micro
